import Mathlib

/-!
Shallow embedding of the time_utilities repository (time_utilities.h and
time_utilities.hpp): timespec/timeval normalization, arithmetic, comparison
and cross-resolution conversion, together with theorems settling the spec
claims about them.

Machine integers (time_t, long) are modelled as unbounded Int: the spec
treats integer wraparound as an implementation-defined boundary and all
claims quantify over values within representable range. C division and
modulus (truncation toward zero) are modelled by Int.tdiv and Int.tmod.
The external clock read (clock_gettime) is modelled as an injected pair
(status, raw timespec) passed to each now-style operation.
-/

/-- NS_IN_SECOND from time_utilities.h: nanoseconds per second. -/
def NS_IN_SECOND : Int := 1000000000

/-- US_IN_SECOND from time_utilities.h: microseconds per second. -/
def US_IN_SECOND : Int := 1000000

/-- MS_IN_SECOND from time_utilities.h: milliseconds per second. -/
def MS_IN_SECOND : Int := 1000

/-- NS_IN_MS from time_utilities.h: nanoseconds per millisecond. -/
def NS_IN_MS : Int := 1000000

/-- US_IN_MS from time_utilities.h: microseconds per millisecond. -/
def US_IN_MS : Int := 1000

/-- struct timespec: seconds and nanoseconds fields. -/
@[ext]
structure Timespec where
  tv_sec : Int
  tv_nsec : Int
deriving DecidableEq

/-- struct timeval: seconds and microseconds fields. -/
@[ext]
structure Timeval where
  tv_sec : Int
  tv_usec : Int
deriving DecidableEq

/-- A timespec is normalized when its nanosecond field lies in [0, NS_IN_SECOND). -/
def Timespec.Normalized (t : Timespec) : Prop :=
  0 ≤ t.tv_nsec ∧ t.tv_nsec < NS_IN_SECOND

instance (t : Timespec) : Decidable t.Normalized :=
  inferInstanceAs (Decidable (0 ≤ t.tv_nsec ∧ t.tv_nsec < NS_IN_SECOND))

/-- A timeval is normalized when its microsecond field lies in [0, US_IN_SECOND). -/
def Timeval.Normalized (t : Timeval) : Prop :=
  0 ≤ t.tv_usec ∧ t.tv_usec < US_IN_SECOND

instance (t : Timeval) : Decidable t.Normalized :=
  inferInstanceAs (Decidable (0 ≤ t.tv_usec ∧ t.tv_usec < US_IN_SECOND))

/-- The true value a timespec represents, in whole nanoseconds
(whole + frac/SCALE scaled by SCALE, kept integral). -/
def Timespec.toVal (t : Timespec) : Int :=
  t.tv_sec * NS_IN_SECOND + t.tv_nsec

/-- The true value a timeval represents, in whole microseconds. -/
def Timeval.toVal (t : Timeval) : Int :=
  t.tv_sec * US_IN_SECOND + t.tv_usec

/-- First while loop of timespec_normalize: while tv_nsec is at least
NS_IN_SECOND, increment tv_sec and subtract NS_IN_SECOND from tv_nsec. -/
def timespec_normalize_carry (tv_sec tv_nsec : Int) : Int × Int :=
  if tv_nsec ≥ NS_IN_SECOND then
    timespec_normalize_carry (tv_sec + 1) (tv_nsec - NS_IN_SECOND)
  else
    (tv_sec, tv_nsec)
termination_by tv_nsec.toNat
decreasing_by simp only [NS_IN_SECOND] at *; omega

/-- Second while loop of timespec_normalize: while tv_nsec is negative,
decrement tv_sec and add NS_IN_SECOND to tv_nsec. -/
def timespec_normalize_borrow (tv_sec tv_nsec : Int) : Int × Int :=
  if tv_nsec < 0 then
    timespec_normalize_borrow (tv_sec - 1) (tv_nsec + NS_IN_SECOND)
  else
    (tv_sec, tv_nsec)
termination_by (-tv_nsec).toNat
decreasing_by simp only [NS_IN_SECOND] at *; omega

/-- timespec_normalize from time_utilities.h: runs the carry loop, then the
borrow loop, on the two fields. -/
def timespec_normalize (ts : Timespec) : Timespec :=
  let p := timespec_normalize_carry ts.tv_sec ts.tv_nsec
  let q := timespec_normalize_borrow p.1 p.2
  ⟨q.1, q.2⟩

/-- timespec_add from time_utilities.h: fieldwise sum then a single
conditional carry. -/
def timespec_add (addend_a addend_b : Timespec) : Timespec :=
  let sec := addend_a.tv_sec + addend_b.tv_sec
  let nsec := addend_a.tv_nsec + addend_b.tv_nsec
  if nsec ≥ NS_IN_SECOND then ⟨sec + 1, nsec - NS_IN_SECOND⟩ else ⟨sec, nsec⟩

/-- timespec_subtract from time_utilities.h: fieldwise difference then a
single conditional borrow. -/
def timespec_subtract (minuend subtrahend : Timespec) : Timespec :=
  let sec := minuend.tv_sec - subtrahend.tv_sec
  let nsec := minuend.tv_nsec - subtrahend.tv_nsec
  if nsec < 0 then ⟨sec - 1, nsec + NS_IN_SECOND⟩ else ⟨sec, nsec⟩

/-- timespec_from_ms from time_utilities.h: C integer division and modulus
(truncation toward zero) on a signed int argument. -/
def timespec_from_ms (ms : Int) : Timespec :=
  ⟨ms.tdiv MS_IN_SECOND, (ms.tmod MS_IN_SECOND) * NS_IN_MS⟩

/-- timespec_compare from time_utilities.h: three-way comparison, seconds
first, then nanoseconds. -/
def timespec_compare (a b : Timespec) : Int :=
  if a.tv_sec > b.tv_sec then 1
  else if a.tv_sec < b.tv_sec then -1
  else if a.tv_nsec > b.tv_nsec then 1
  else if a.tv_nsec < b.tv_nsec then -1
  else 0

/-- Characterization of the carry loop by Euclidean division. -/
lemma timespec_normalize_carry_eq (s n : Int) :
    timespec_normalize_carry s n =
      if n ≥ NS_IN_SECOND then (s + n / NS_IN_SECOND, n % NS_IN_SECOND)
      else (s, n) := by
  induction s, n using timespec_normalize_carry.induct with
  | case1 s n h ih =>
    rw [timespec_normalize_carry]
    simp only [h, if_pos, ih]
    simp only [NS_IN_SECOND] at *
    split <;> (rw [Prod.mk.injEq]; constructor <;> omega)
  | case2 s n h =>
    rw [timespec_normalize_carry]
    simp [h]

/-- Characterization of the borrow loop by Euclidean division. -/
lemma timespec_normalize_borrow_eq (s n : Int) :
    timespec_normalize_borrow s n =
      if n < 0 then (s + n / NS_IN_SECOND, n % NS_IN_SECOND)
      else (s, n) := by
  induction s, n using timespec_normalize_borrow.induct with
  | case1 s n h ih =>
    rw [timespec_normalize_borrow]
    simp only [h, if_pos, ih]
    simp only [NS_IN_SECOND] at *
    split <;> (rw [Prod.mk.injEq]; constructor <;> omega)
  | case2 s n h =>
    rw [timespec_normalize_borrow]
    simp [h]

/-- The two loops of timespec_normalize together compute Euclidean
division of the nanosecond field by NS_IN_SECOND. -/
lemma timespec_normalize_eq (t : Timespec) :
    timespec_normalize t =
      ⟨t.tv_sec + t.tv_nsec / NS_IN_SECOND, t.tv_nsec % NS_IN_SECOND⟩ := by
  unfold timespec_normalize
  rw [timespec_normalize_carry_eq]
  simp only [NS_IN_SECOND]
  split
  · rw [timespec_normalize_borrow_eq]
    split
    · ext <;> simp [NS_IN_SECOND] <;> omega
    · rfl
  · rw [timespec_normalize_borrow_eq]
    split
    · ext <;> simp [NS_IN_SECOND]
    · ext <;> simp [NS_IN_SECOND] <;> omega

/-- Normalizing an already-normalized timespec is the identity. -/
lemma timespec_normalize_of_normalized (t : Timespec) (h : t.Normalized) :
    timespec_normalize t = t := by
  rw [timespec_normalize_eq]
  obtain ⟨h1, h2⟩ := h
  simp only [NS_IN_SECOND] at *
  ext <;> simp <;> omega

/-- First while loop of timeval_normalize: while tv_usec is at least
US_IN_SECOND, increment tv_sec and subtract US_IN_SECOND from tv_usec. -/
def timeval_normalize_carry (tv_sec tv_usec : Int) : Int × Int :=
  if tv_usec ≥ US_IN_SECOND then
    timeval_normalize_carry (tv_sec + 1) (tv_usec - US_IN_SECOND)
  else
    (tv_sec, tv_usec)
termination_by tv_usec.toNat
decreasing_by simp only [US_IN_SECOND] at *; omega

/-- Second while loop of timeval_normalize: while tv_usec is negative,
decrement tv_sec and add US_IN_SECOND to tv_usec. -/
def timeval_normalize_borrow (tv_sec tv_usec : Int) : Int × Int :=
  if tv_usec < 0 then
    timeval_normalize_borrow (tv_sec - 1) (tv_usec + US_IN_SECOND)
  else
    (tv_sec, tv_usec)
termination_by (-tv_usec).toNat
decreasing_by simp only [US_IN_SECOND] at *; omega

/-- timeval_normalize from time_utilities.h: carry loop then borrow loop. -/
def timeval_normalize (tv : Timeval) : Timeval :=
  let p := timeval_normalize_carry tv.tv_sec tv.tv_usec
  let q := timeval_normalize_borrow p.1 p.2
  ⟨q.1, q.2⟩

/-- timeval_add from time_utilities.h: fieldwise sum then a single
conditional carry. -/
def timeval_add (addend_a addend_b : Timeval) : Timeval :=
  let sec := addend_a.tv_sec + addend_b.tv_sec
  let usec := addend_a.tv_usec + addend_b.tv_usec
  if usec ≥ US_IN_SECOND then ⟨sec + 1, usec - US_IN_SECOND⟩ else ⟨sec, usec⟩

/-- timeval_subtract from time_utilities.h: fieldwise difference then a
single conditional borrow. -/
def timeval_subtract (minuend subtrahend : Timeval) : Timeval :=
  let sec := minuend.tv_sec - subtrahend.tv_sec
  let usec := minuend.tv_usec - subtrahend.tv_usec
  if usec < 0 then ⟨sec - 1, usec + US_IN_SECOND⟩ else ⟨sec, usec⟩

/-- timeval_from_ms from time_utilities.h: C integer division and modulus
(truncation toward zero) on a signed int argument. -/
def timeval_from_ms (ms : Int) : Timeval :=
  ⟨ms.tdiv MS_IN_SECOND, (ms.tmod MS_IN_SECOND) * US_IN_MS⟩

/-- timeval_compare from time_utilities.h: three-way comparison, seconds
first, then microseconds. -/
def timeval_compare (a b : Timeval) : Int :=
  if a.tv_sec > b.tv_sec then 1
  else if a.tv_sec < b.tv_sec then -1
  else if a.tv_usec > b.tv_usec then 1
  else if a.tv_usec < b.tv_usec then -1
  else 0

/-- timespec_to_timeval from time_utilities.h: seconds copied, nanoseconds
divided by 1000 with C truncating division. -/
def timespec_to_timeval (ts : Timespec) : Timeval :=
  ⟨ts.tv_sec, ts.tv_nsec.tdiv 1000⟩

/-- timeval_to_timespec from time_utilities.h: seconds copied, microseconds
multiplied by 1000. -/
def timeval_to_timespec (tv : Timeval) : Timespec :=
  ⟨tv.tv_sec, tv.tv_usec * 1000⟩

/-- Characterization of the timeval carry loop by Euclidean division. -/
lemma timeval_normalize_carry_eq (s n : Int) :
    timeval_normalize_carry s n =
      if n ≥ US_IN_SECOND then (s + n / US_IN_SECOND, n % US_IN_SECOND)
      else (s, n) := by
  induction s, n using timeval_normalize_carry.induct with
  | case1 s n h ih =>
    rw [timeval_normalize_carry]
    simp only [h, if_pos, ih]
    simp only [US_IN_SECOND] at *
    split <;> (rw [Prod.mk.injEq]; constructor <;> omega)
  | case2 s n h =>
    rw [timeval_normalize_carry]
    simp [h]

/-- Characterization of the timeval borrow loop by Euclidean division. -/
lemma timeval_normalize_borrow_eq (s n : Int) :
    timeval_normalize_borrow s n =
      if n < 0 then (s + n / US_IN_SECOND, n % US_IN_SECOND)
      else (s, n) := by
  induction s, n using timeval_normalize_borrow.induct with
  | case1 s n h ih =>
    rw [timeval_normalize_borrow]
    simp only [h, if_pos, ih]
    simp only [US_IN_SECOND] at *
    split <;> (rw [Prod.mk.injEq]; constructor <;> omega)
  | case2 s n h =>
    rw [timeval_normalize_borrow]
    simp [h]

/-- The two loops of timeval_normalize together compute Euclidean division
of the microsecond field by US_IN_SECOND. -/
lemma timeval_normalize_eq (t : Timeval) :
    timeval_normalize t =
      ⟨t.tv_sec + t.tv_usec / US_IN_SECOND, t.tv_usec % US_IN_SECOND⟩ := by
  unfold timeval_normalize
  rw [timeval_normalize_carry_eq]
  simp only [US_IN_SECOND]
  split
  · rw [timeval_normalize_borrow_eq]
    split
    · ext <;> simp [US_IN_SECOND] <;> omega
    · rfl
  · rw [timeval_normalize_borrow_eq]
    split
    · ext <;> simp [US_IN_SECOND]
    · ext <;> simp [US_IN_SECOND] <;> omega

/-- Normalizing an already-normalized timeval is the identity. -/
lemma timeval_normalize_of_normalized (t : Timeval) (h : t.Normalized) :
    timeval_normalize t = t := by
  rw [timeval_normalize_eq]
  obtain ⟨h1, h2⟩ := h
  simp only [US_IN_SECOND] at *
  ext <;> simp <;> omega

/-- timespec_now from time_utilities.h, with the external clock_gettime
outcome injected as a (status, raw value) pair: the raw value is written to
the out parameter and the status is returned. -/
def timespec_now (clock : Int × Timespec) : Int × Timespec :=
  (clock.1, clock.2)

/-- timespec_now_monotonic from time_utilities.h: same shape as
timespec_now, reading the monotonic clock. -/
def timespec_now_monotonic (clock : Int × Timespec) : Int × Timespec :=
  (clock.1, clock.2)

/-- timespec_now_monotonic_raw from time_utilities.h: same shape as
timespec_now, reading the monotonic raw clock. -/
def timespec_now_monotonic_raw (clock : Int × Timespec) : Int × Timespec :=
  (clock.1, clock.2)

/-- timeval_now from time_utilities.h: reads the clock, converts the raw
timespec to a timeval unconditionally, and returns the clock status. -/
def timeval_now (clock : Int × Timespec) : Int × Timeval :=
  (clock.1, timespec_to_timeval clock.2)

/-- timeval_now_monotonic from time_utilities.h. -/
def timeval_now_monotonic (clock : Int × Timespec) : Int × Timeval :=
  (clock.1, timespec_to_timeval clock.2)

/-- timeval_now_monotonic_raw from time_utilities.h. -/
def timeval_now_monotonic_raw (clock : Int × Timespec) : Int × Timeval :=
  (clock.1, timespec_to_timeval clock.2)

/-- CTimeSpec from time_utilities.hpp: wrapper holding a timespec. -/
@[ext]
structure CTimeSpec where
  ts : Timespec
deriving DecidableEq

/-- CTimeVal from time_utilities.hpp: wrapper holding a timeval. -/
@[ext]
structure CTimeVal where
  tv : Timeval
deriving DecidableEq

/-- CTimeSpec default constructor: zero fields. -/
def CTimeSpec.mkDefault : CTimeSpec := ⟨⟨0, 0⟩⟩

/-- CTimeSpec millisecond constructor: the argument is an unsigned int, so
it is a non-negative integer, divided with C long division. -/
def CTimeSpec.ofMs (ms : Nat) : CTimeSpec :=
  ⟨⟨(ms : Int).tdiv MS_IN_SECOND, ((ms : Int).tmod MS_IN_SECOND) * NS_IN_MS⟩⟩

/-- CTimeSpec constructor from a raw timespec: runs the same carry and
borrow while loops as timespec_normalize before storing. -/
def CTimeSpec.ofTimespec (t : Timespec) : CTimeSpec :=
  ⟨timespec_normalize t⟩

/-- CTimeSpec constructor from separate sec and nsec arguments: the same
carry and borrow while loops, then the fields are stored. -/
def CTimeSpec.ofSecNsec (sec nsec : Int) : CTimeSpec :=
  ⟨timespec_normalize ⟨sec, nsec⟩⟩

/-- CTimeSpec constructor from a timeval: microseconds scaled by 1000, then
the same carry and borrow while loops. -/
def CTimeSpec.ofTimeval (t : Timeval) : CTimeSpec :=
  ⟨timespec_normalize ⟨t.tv_sec, t.tv_usec * 1000⟩⟩

/-- CTimeSpec::Now with the clock_gettime outcome injected: the status is
ignored and the raw value goes through the normalizing constructor. -/
def CTimeSpec.Now (clock : Int × Timespec) : CTimeSpec :=
  CTimeSpec.ofTimespec clock.2

/-- CTimeSpec::NowMonotonic: same shape as CTimeSpec::Now. -/
def CTimeSpec.NowMonotonic (clock : Int × Timespec) : CTimeSpec :=
  CTimeSpec.ofTimespec clock.2

/-- CTimeSpec::NowMonotonicRaw: same shape as CTimeSpec::Now. -/
def CTimeSpec.NowMonotonicRaw (clock : Int × Timespec) : CTimeSpec :=
  CTimeSpec.ofTimespec clock.2

/-- CTimeSpec operator+=: fieldwise sum with a single conditional carry,
no normalizing constructor involved. -/
def CTimeSpec.addAssign (self rhs : CTimeSpec) : CTimeSpec :=
  let sec := self.ts.tv_sec + rhs.ts.tv_sec
  let nsec := self.ts.tv_nsec + rhs.ts.tv_nsec
  if nsec ≥ NS_IN_SECOND then ⟨⟨sec + 1, nsec - NS_IN_SECOND⟩⟩ else ⟨⟨sec, nsec⟩⟩

/-- CTimeSpec operator-=: fieldwise difference with a single conditional
borrow, no normalizing constructor involved. -/
def CTimeSpec.subAssign (self rhs : CTimeSpec) : CTimeSpec :=
  let sec := self.ts.tv_sec - rhs.ts.tv_sec
  let nsec := self.ts.tv_nsec - rhs.ts.tv_nsec
  if nsec < 0 then ⟨⟨sec - 1, nsec + NS_IN_SECOND⟩⟩ else ⟨⟨sec, nsec⟩⟩

/-- Friend operator+ on CTimeSpec: fieldwise sum with a single conditional
carry, and the result goes through the normalizing constructor. -/
def CTimeSpec.add (lhs rhs : CTimeSpec) : CTimeSpec :=
  let sec := lhs.ts.tv_sec + rhs.ts.tv_sec
  let nsec := lhs.ts.tv_nsec + rhs.ts.tv_nsec
  if nsec ≥ NS_IN_SECOND then CTimeSpec.ofTimespec ⟨sec + 1, nsec - NS_IN_SECOND⟩
  else CTimeSpec.ofTimespec ⟨sec, nsec⟩

/-- Friend operator- on CTimeSpec: fieldwise difference with a single
conditional borrow, and the result goes through the normalizing
constructor. -/
def CTimeSpec.sub (lhs rhs : CTimeSpec) : CTimeSpec :=
  let sec := lhs.ts.tv_sec - rhs.ts.tv_sec
  let nsec := lhs.ts.tv_nsec - rhs.ts.tv_nsec
  if nsec < 0 then CTimeSpec.ofTimespec ⟨sec - 1, nsec + NS_IN_SECOND⟩
  else CTimeSpec.ofTimespec ⟨sec, nsec⟩

/-- CTimeSpec operator!=: true when either field differs. -/
def CTimeSpec.ne (self rhs : CTimeSpec) : Bool :=
  if self.ts.tv_sec ≠ rhs.ts.tv_sec then true
  else if self.ts.tv_nsec ≠ rhs.ts.tv_nsec then true
  else false

/-- CTimeSpec operator==: negation of operator!=. -/
def CTimeSpec.eq (self rhs : CTimeSpec) : Bool :=
  !(CTimeSpec.ne self rhs)

/-- CTimeSpec operator<, exactly as coded in time_utilities.hpp: true when
tv_sec is less, otherwise true when tv_nsec is less, with no check that the
tv_sec fields are equal before the tv_nsec branch. -/
def CTimeSpec.lt (self rhs : CTimeSpec) : Bool :=
  if self.ts.tv_sec < rhs.ts.tv_sec then true
  else if self.ts.tv_nsec < rhs.ts.tv_nsec then true
  else false

/-- CTimeSpec operator>, exactly as coded in time_utilities.hpp: true when
tv_sec is greater, otherwise true when tv_nsec is greater. -/
def CTimeSpec.gt (self rhs : CTimeSpec) : Bool :=
  if self.ts.tv_sec > rhs.ts.tv_sec then true
  else if self.ts.tv_nsec > rhs.ts.tv_nsec then true
  else false

/-- CTimeSpec operator<=: derived from operator< and operator==. -/
def CTimeSpec.le (self rhs : CTimeSpec) : Bool :=
  if CTimeSpec.lt self rhs then true
  else if CTimeSpec.eq self rhs then true
  else false

/-- CTimeSpec operator>=: derived from operator> and operator==. -/
def CTimeSpec.ge (self rhs : CTimeSpec) : Bool :=
  if CTimeSpec.gt self rhs then true
  else if CTimeSpec.eq self rhs then true
  else false

/-- CTimeVal default constructor: zero fields. -/
def CTimeVal.mkDefault : CTimeVal := ⟨⟨0, 0⟩⟩

/-- CTimeVal millisecond constructor: the argument is an unsigned int, so
it is a non-negative integer, divided with C long division. -/
def CTimeVal.ofMs (ms : Nat) : CTimeVal :=
  ⟨⟨(ms : Int).tdiv MS_IN_SECOND, ((ms : Int).tmod MS_IN_SECOND) * US_IN_MS⟩⟩

/-- CTimeVal constructor from a raw timeval: runs the same carry and borrow
while loops as timeval_normalize before storing. -/
def CTimeVal.ofTimeval (t : Timeval) : CTimeVal :=
  ⟨timeval_normalize t⟩

/-- CTimeVal constructor from separate sec and usec arguments: the same
carry and borrow while loops, then the fields are stored. -/
def CTimeVal.ofSecUsec (sec usec : Int) : CTimeVal :=
  ⟨timeval_normalize ⟨sec, usec⟩⟩

/-- CTimeVal constructor from a timespec: nanoseconds divided by 1000 with
C truncating division, then the same carry and borrow while loops. -/
def CTimeVal.ofTimespec (t : Timespec) : CTimeVal :=
  ⟨timeval_normalize ⟨t.tv_sec, t.tv_nsec.tdiv 1000⟩⟩

/-- CTimeVal::Now with the clock_gettime outcome injected: the status is
ignored and the raw timespec goes through the converting constructor. -/
def CTimeVal.Now (clock : Int × Timespec) : CTimeVal :=
  CTimeVal.ofTimespec clock.2

/-- CTimeVal::NowMonotonic: same shape as CTimeVal::Now. -/
def CTimeVal.NowMonotonic (clock : Int × Timespec) : CTimeVal :=
  CTimeVal.ofTimespec clock.2

/-- CTimeVal::NowMonotonicRaw: same shape as CTimeVal::Now. -/
def CTimeVal.NowMonotonicRaw (clock : Int × Timespec) : CTimeVal :=
  CTimeVal.ofTimespec clock.2

/-- CTimeVal operator+=: fieldwise sum with a single conditional carry. -/
def CTimeVal.addAssign (self rhs : CTimeVal) : CTimeVal :=
  let sec := self.tv.tv_sec + rhs.tv.tv_sec
  let usec := self.tv.tv_usec + rhs.tv.tv_usec
  if usec ≥ US_IN_SECOND then ⟨⟨sec + 1, usec - US_IN_SECOND⟩⟩ else ⟨⟨sec, usec⟩⟩

/-- CTimeVal operator-=: fieldwise difference with a single conditional
borrow. -/
def CTimeVal.subAssign (self rhs : CTimeVal) : CTimeVal :=
  let sec := self.tv.tv_sec - rhs.tv.tv_sec
  let usec := self.tv.tv_usec - rhs.tv.tv_usec
  if usec < 0 then ⟨⟨sec - 1, usec + US_IN_SECOND⟩⟩ else ⟨⟨sec, usec⟩⟩

/-- Friend operator+ on CTimeVal: carry correction then the normalizing
constructor. -/
def CTimeVal.add (lhs rhs : CTimeVal) : CTimeVal :=
  let sec := lhs.tv.tv_sec + rhs.tv.tv_sec
  let usec := lhs.tv.tv_usec + rhs.tv.tv_usec
  if usec ≥ US_IN_SECOND then CTimeVal.ofTimeval ⟨sec + 1, usec - US_IN_SECOND⟩
  else CTimeVal.ofTimeval ⟨sec, usec⟩

/-- Friend operator- on CTimeVal: borrow correction then the normalizing
constructor. -/
def CTimeVal.sub (lhs rhs : CTimeVal) : CTimeVal :=
  let sec := lhs.tv.tv_sec - rhs.tv.tv_sec
  let usec := lhs.tv.tv_usec - rhs.tv.tv_usec
  if usec < 0 then CTimeVal.ofTimeval ⟨sec - 1, usec + US_IN_SECOND⟩
  else CTimeVal.ofTimeval ⟨sec, usec⟩

/-- CTimeVal operator!=: true when either field differs. -/
def CTimeVal.ne (self rhs : CTimeVal) : Bool :=
  if self.tv.tv_sec ≠ rhs.tv.tv_sec then true
  else if self.tv.tv_usec ≠ rhs.tv.tv_usec then true
  else false

/-- CTimeVal operator==: negation of operator!=. -/
def CTimeVal.eq (self rhs : CTimeVal) : Bool :=
  !(CTimeVal.ne self rhs)

/-- CTimeVal operator<, exactly as coded in time_utilities.hpp: true when
tv_sec is less, otherwise true when tv_usec is less, with no check that the
tv_sec fields are equal before the tv_usec branch. -/
def CTimeVal.lt (self rhs : CTimeVal) : Bool :=
  if self.tv.tv_sec < rhs.tv.tv_sec then true
  else if self.tv.tv_usec < rhs.tv.tv_usec then true
  else false

/-- CTimeVal operator>, exactly as coded in time_utilities.hpp. -/
def CTimeVal.gt (self rhs : CTimeVal) : Bool :=
  if self.tv.tv_sec > rhs.tv.tv_sec then true
  else if self.tv.tv_usec > rhs.tv.tv_usec then true
  else false

/-- CTimeVal operator<=: derived from operator< and operator==. -/
def CTimeVal.le (self rhs : CTimeVal) : Bool :=
  if CTimeVal.lt self rhs then true
  else if CTimeVal.eq self rhs then true
  else false

/-- CTimeVal operator>=: derived from operator> and operator==. -/
def CTimeVal.ge (self rhs : CTimeVal) : Bool :=
  if CTimeVal.gt self rhs then true
  else if CTimeVal.eq self rhs then true
  else false

/-- For normalized operands the single carry in timespec_add yields a
normalized sum representing exactly the sum of the operand values. -/
lemma timespec_add_spec (a b : Timespec) (ha : a.Normalized) (hb : b.Normalized) :
    (timespec_add a b).Normalized ∧ (timespec_add a b).toVal = a.toVal + b.toVal := by
  obtain ⟨ha1, ha2⟩ := ha
  obtain ⟨hb1, hb2⟩ := hb
  simp only [timespec_add, Timespec.Normalized, Timespec.toVal, NS_IN_SECOND] at *
  split <;> simp <;> omega

/-- For normalized operands the single borrow in timespec_subtract yields a
normalized difference representing exactly the difference of the operand
values. -/
lemma timespec_subtract_spec (a b : Timespec) (ha : a.Normalized) (hb : b.Normalized) :
    (timespec_subtract a b).Normalized ∧
      (timespec_subtract a b).toVal = a.toVal - b.toVal := by
  obtain ⟨ha1, ha2⟩ := ha
  obtain ⟨hb1, hb2⟩ := hb
  simp only [timespec_subtract, Timespec.Normalized, Timespec.toVal, NS_IN_SECOND] at *
  split <;> simp <;> omega

/-- Two normalized timespecs with the same represented value are equal. -/
lemma timespec_toVal_inj (a b : Timespec) (ha : a.Normalized) (hb : b.Normalized)
    (h : a.toVal = b.toVal) : a = b := by
  obtain ⟨ha1, ha2⟩ := ha
  obtain ⟨hb1, hb2⟩ := hb
  simp only [Timespec.toVal, NS_IN_SECOND] at *
  ext <;> omega

/-- For normalized operands the single carry in timeval_add yields a
normalized sum representing exactly the sum of the operand values. -/
lemma timeval_add_spec (a b : Timeval) (ha : a.Normalized) (hb : b.Normalized) :
    (timeval_add a b).Normalized ∧ (timeval_add a b).toVal = a.toVal + b.toVal := by
  obtain ⟨ha1, ha2⟩ := ha
  obtain ⟨hb1, hb2⟩ := hb
  simp only [timeval_add, Timeval.Normalized, Timeval.toVal, US_IN_SECOND] at *
  split <;> simp <;> omega

/-- For normalized operands the single borrow in timeval_subtract yields a
normalized difference representing exactly the difference of the operand
values. -/
lemma timeval_subtract_spec (a b : Timeval) (ha : a.Normalized) (hb : b.Normalized) :
    (timeval_subtract a b).Normalized ∧
      (timeval_subtract a b).toVal = a.toVal - b.toVal := by
  obtain ⟨ha1, ha2⟩ := ha
  obtain ⟨hb1, hb2⟩ := hb
  simp only [timeval_subtract, Timeval.Normalized, Timeval.toVal, US_IN_SECOND] at *
  split <;> simp <;> omega

/-- Two normalized timevals with the same represented value are equal. -/
lemma timeval_toVal_inj (a b : Timeval) (ha : a.Normalized) (hb : b.Normalized)
    (h : a.toVal = b.toVal) : a = b := by
  obtain ⟨ha1, ha2⟩ := ha
  obtain ⟨hb1, hb2⟩ := hb
  simp only [Timeval.toVal, US_IN_SECOND] at *
  ext <;> omega

/-- CTimeSpec operator+= computes the same fields as timespec_add. -/
lemma ctimespec_addAssign_eq (a b : Timespec) :
    CTimeSpec.addAssign ⟨a⟩ ⟨b⟩ = ⟨timespec_add a b⟩ := by
  simp only [CTimeSpec.addAssign, timespec_add]
  split <;> rfl

/-- CTimeSpec operator-= computes the same fields as timespec_subtract. -/
lemma ctimespec_subAssign_eq (a b : Timespec) :
    CTimeSpec.subAssign ⟨a⟩ ⟨b⟩ = ⟨timespec_subtract a b⟩ := by
  simp only [CTimeSpec.subAssign, timespec_subtract]
  split <;> rfl

/-- On normalized operands the friend operator+ on CTimeSpec agrees with
timespec_add: the trailing normalizing constructor is the identity. -/
lemma ctimespec_add_eq (a b : Timespec) (ha : a.Normalized) (hb : b.Normalized) :
    CTimeSpec.add ⟨a⟩ ⟨b⟩ = ⟨timespec_add a b⟩ := by
  have hstep : CTimeSpec.add ⟨a⟩ ⟨b⟩ = CTimeSpec.ofTimespec (timespec_add a b) := by
    simp only [CTimeSpec.add, timespec_add]
    split <;> rfl
  rw [hstep, CTimeSpec.ofTimespec,
    timespec_normalize_of_normalized _ (timespec_add_spec a b ha hb).1]

/-- On normalized operands the friend operator- on CTimeSpec agrees with
timespec_subtract: the trailing normalizing constructor is the identity. -/
lemma ctimespec_sub_eq (a b : Timespec) (ha : a.Normalized) (hb : b.Normalized) :
    CTimeSpec.sub ⟨a⟩ ⟨b⟩ = ⟨timespec_subtract a b⟩ := by
  have hstep : CTimeSpec.sub ⟨a⟩ ⟨b⟩ = CTimeSpec.ofTimespec (timespec_subtract a b) := by
    simp only [CTimeSpec.sub, timespec_subtract]
    split <;> rfl
  rw [hstep, CTimeSpec.ofTimespec,
    timespec_normalize_of_normalized _ (timespec_subtract_spec a b ha hb).1]

/-- CTimeVal operator+= computes the same fields as timeval_add. -/
lemma ctimeval_addAssign_eq (a b : Timeval) :
    CTimeVal.addAssign ⟨a⟩ ⟨b⟩ = ⟨timeval_add a b⟩ := by
  simp only [CTimeVal.addAssign, timeval_add]
  split <;> rfl

/-- CTimeVal operator-= computes the same fields as timeval_subtract. -/
lemma ctimeval_subAssign_eq (a b : Timeval) :
    CTimeVal.subAssign ⟨a⟩ ⟨b⟩ = ⟨timeval_subtract a b⟩ := by
  simp only [CTimeVal.subAssign, timeval_subtract]
  split <;> rfl

/-- On normalized operands the friend operator+ on CTimeVal agrees with
timeval_add: the trailing normalizing constructor is the identity. -/
lemma ctimeval_add_eq (a b : Timeval) (ha : a.Normalized) (hb : b.Normalized) :
    CTimeVal.add ⟨a⟩ ⟨b⟩ = ⟨timeval_add a b⟩ := by
  have hstep : CTimeVal.add ⟨a⟩ ⟨b⟩ = CTimeVal.ofTimeval (timeval_add a b) := by
    simp only [CTimeVal.add, timeval_add]
    split <;> rfl
  rw [hstep, CTimeVal.ofTimeval,
    timeval_normalize_of_normalized _ (timeval_add_spec a b ha hb).1]

/-- On normalized operands the friend operator- on CTimeVal agrees with
timeval_subtract: the trailing normalizing constructor is the identity. -/
lemma ctimeval_sub_eq (a b : Timeval) (ha : a.Normalized) (hb : b.Normalized) :
    CTimeVal.sub ⟨a⟩ ⟨b⟩ = ⟨timeval_subtract a b⟩ := by
  have hstep : CTimeVal.sub ⟨a⟩ ⟨b⟩ = CTimeVal.ofTimeval (timeval_subtract a b) := by
    simp only [CTimeVal.sub, timeval_subtract]
    split <;> rfl
  rw [hstep, CTimeVal.ofTimeval,
    timeval_normalize_of_normalized _ (timeval_subtract_spec a b ha hb).1]

/-- The result of timespec_normalize is always normalized. -/
lemma timespec_normalize_normalized (t : Timespec) :
    (timespec_normalize t).Normalized := by
  rw [timespec_normalize_eq]
  simp only [Timespec.Normalized, NS_IN_SECOND]
  omega

/-- The result of timeval_normalize is always normalized. -/
lemma timeval_normalize_normalized (t : Timeval) :
    (timeval_normalize t).Normalized := by
  rw [timeval_normalize_eq]
  simp only [Timeval.Normalized, US_IN_SECOND]
  omega

/-- Claim C2: for every integer pair (whole, frac), including frac far
outside the normalized interval, normalization by timespec_normalize and
timeval_normalize and by the normalizing constructors CTimeSpec(sec, nsec),
CTimeSpec(struct timespec), CTimeVal(sec, usec) and CTimeVal(struct timeval)
produces fields with 0 <= frac' < SCALE whose represented value
whole' * SCALE + frac' equals whole * SCALE + frac. -/
theorem claim_c2_normalization_invariant (whole frac : Int) :
    (timespec_normalize ⟨whole, frac⟩).Normalized ∧
    (timespec_normalize ⟨whole, frac⟩).toVal = whole * NS_IN_SECOND + frac ∧
    (CTimeSpec.ofSecNsec whole frac).ts = timespec_normalize ⟨whole, frac⟩ ∧
    (CTimeSpec.ofTimespec ⟨whole, frac⟩).ts = timespec_normalize ⟨whole, frac⟩ ∧
    (timeval_normalize ⟨whole, frac⟩).Normalized ∧
    (timeval_normalize ⟨whole, frac⟩).toVal = whole * US_IN_SECOND + frac ∧
    (CTimeVal.ofSecUsec whole frac).tv = timeval_normalize ⟨whole, frac⟩ ∧
    (CTimeVal.ofTimeval ⟨whole, frac⟩).tv = timeval_normalize ⟨whole, frac⟩ := by
  refine ⟨timespec_normalize_normalized _, ?_, rfl, rfl,
    timeval_normalize_normalized _, ?_, rfl, rfl⟩
  · rw [timespec_normalize_eq]
    simp only [Timespec.toVal, NS_IN_SECOND]
    omega
  · rw [timeval_normalize_eq]
    simp only [Timeval.toVal, US_IN_SECOND]
    omega

/-- Spec-side definition for the refinement claim C5, following the spec
wording: carry = floor(frac / SCALE), whole' = whole + carry,
frac' = frac - carry * SCALE, at nanosecond scale. -/
def timespec_normalize_floor (ts : Timespec) : Timespec :=
  let carry := ts.tv_nsec.fdiv NS_IN_SECOND
  ⟨ts.tv_sec + carry, ts.tv_nsec - carry * NS_IN_SECOND⟩

/-- Spec-side definition for the refinement claim C5 at microsecond
scale. -/
def timeval_normalize_floor (tv : Timeval) : Timeval :=
  let carry := tv.tv_usec.fdiv US_IN_SECOND
  ⟨tv.tv_sec + carry, tv.tv_usec - carry * US_IN_SECOND⟩

/-- Claim C5: on every integer pair the repeated increment/decrement loop
normalization of timespec_normalize, timeval_normalize and the normalizing
constructors computes exactly the one-pass floor-division normalization,
including the two large-magnitude example inputs of the spec. -/
theorem claim_c5_loop_normalization_equals_floor_division (whole frac : Int) :
    timespec_normalize ⟨whole, frac⟩ = timespec_normalize_floor ⟨whole, frac⟩ ∧
    (CTimeSpec.ofSecNsec whole frac).ts = timespec_normalize_floor ⟨whole, frac⟩ ∧
    timeval_normalize ⟨whole, frac⟩ = timeval_normalize_floor ⟨whole, frac⟩ ∧
    (CTimeVal.ofSecUsec whole frac).tv = timeval_normalize_floor ⟨whole, frac⟩ ∧
    timespec_normalize ⟨10, 2147483647⟩ = ⟨12, 147483647⟩ ∧
    timespec_normalize ⟨10, -2147483647⟩ = ⟨7, 852516353⟩ := by
  have hns : timespec_normalize ⟨whole, frac⟩ = timespec_normalize_floor ⟨whole, frac⟩ := by
    rw [timespec_normalize_eq]
    simp only [timespec_normalize_floor]
    rw [Int.fdiv_eq_ediv _ (by norm_num [NS_IN_SECOND])]
    simp only [NS_IN_SECOND]
    ext <;> simp <;> omega
  have hus : timeval_normalize ⟨whole, frac⟩ = timeval_normalize_floor ⟨whole, frac⟩ := by
    rw [timeval_normalize_eq]
    simp only [timeval_normalize_floor]
    rw [Int.fdiv_eq_ediv _ (by norm_num [US_IN_SECOND])]
    simp only [US_IN_SECOND]
    ext <;> simp <;> omega
  refine ⟨hns, ?_, hus, ?_, ?_, ?_⟩
  · show (⟨timespec_normalize ⟨whole, frac⟩⟩ : CTimeSpec).ts = _
    rw [hns]
  · show (⟨timeval_normalize ⟨whole, frac⟩⟩ : CTimeVal).tv = _
    rw [hus]
  · rw [timespec_normalize_eq]
    decide
  · rw [timespec_normalize_eq]
    decide

/-- One iteration of the single-unit correction loops of the loop-based
normalization at nanosecond scale: the carry branch when the fraction is
at least NS_IN_SECOND, the borrow branch when it is negative, identity
otherwise. -/
def timespec_norm_step (p : Int × Int) : Int × Int :=
  if p.2 ≥ NS_IN_SECOND then (p.1 + 1, p.2 - NS_IN_SECOND)
  else if p.2 < 0 then (p.1 - 1, p.2 + NS_IN_SECOND)
  else p

/-- One iteration of the single-unit correction loops at microsecond
scale. -/
def timeval_norm_step (p : Int × Int) : Int × Int :=
  if p.2 ≥ US_IN_SECOND then (p.1 + 1, p.2 - US_IN_SECOND)
  else if p.2 < 0 then (p.1 - 1, p.2 + US_IN_SECOND)
  else p

/-- Distance of a fraction from the normalized interval [0, scale): zero
exactly on the interval, otherwise how far the fraction is outside it. -/
def norm_distance (scale frac : Int) : Nat :=
  if frac < 0 then (-frac).toNat else (frac - scale + 1).toNat

/-- A loop iteration keeps the value that timespec_normalize computes. -/
lemma timespec_norm_step_normalize (p : Int × Int) :
    timespec_normalize ⟨(timespec_norm_step p).1, (timespec_norm_step p).2⟩ =
      timespec_normalize ⟨p.1, p.2⟩ := by
  rw [timespec_normalize_eq, timespec_normalize_eq]
  simp only [timespec_norm_step, NS_IN_SECOND]
  split
  · ext <;> simp <;> omega
  · split
    · ext <;> simp <;> omega
    · rfl

/-- A loop iteration keeps the value that timeval_normalize computes. -/
lemma timeval_norm_step_normalize (p : Int × Int) :
    timeval_normalize ⟨(timeval_norm_step p).1, (timeval_norm_step p).2⟩ =
      timeval_normalize ⟨p.1, p.2⟩ := by
  rw [timeval_normalize_eq, timeval_normalize_eq]
  simp only [timeval_norm_step, US_IN_SECOND]
  split
  · ext <;> simp <;> omega
  · split
    · ext <;> simp <;> omega
    · rfl

/-- On a fraction outside [0, scale), one nanosecond-scale loop iteration
strictly decreases the distance from the interval. -/
lemma timespec_norm_step_distance_lt (p : Int × Int)
    (h : ¬(0 ≤ p.2 ∧ p.2 < NS_IN_SECOND)) :
    norm_distance NS_IN_SECOND (timespec_norm_step p).2 <
      norm_distance NS_IN_SECOND p.2 := by
  simp only [timespec_norm_step, norm_distance, NS_IN_SECOND] at *
  split_ifs at * <;> omega

/-- On a fraction outside [0, scale), one microsecond-scale loop iteration
strictly decreases the distance from the interval. -/
lemma timeval_norm_step_distance_lt (p : Int × Int)
    (h : ¬(0 ≤ p.2 ∧ p.2 < US_IN_SECOND)) :
    norm_distance US_IN_SECOND (timeval_norm_step p).2 <
      norm_distance US_IN_SECOND p.2 := by
  simp only [timeval_norm_step, norm_distance, US_IN_SECOND] at *
  split_ifs at * <;> omega

/-- Iterating the nanosecond-scale loop step reaches the result of
timespec_normalize in finitely many iterations, given any distance bound. -/
lemma timespec_norm_step_reaches_aux (d : Nat) :
    ∀ p : Int × Int, norm_distance NS_IN_SECOND p.2 ≤ d →
      ∃ k, timespec_norm_step^[k] p =
        ((timespec_normalize ⟨p.1, p.2⟩).tv_sec,
          (timespec_normalize ⟨p.1, p.2⟩).tv_nsec) := by
  induction d with
  | zero =>
    intro p hp
    have hin : 0 ≤ p.2 ∧ p.2 < NS_IN_SECOND := by
      simp only [norm_distance, NS_IN_SECOND] at *
      split at hp <;> omega
    refine ⟨0, ?_⟩
    rw [Function.iterate_zero_apply,
      timespec_normalize_of_normalized ⟨p.1, p.2⟩ hin]
  | succ d ih =>
    intro p hp
    by_cases hin : 0 ≤ p.2 ∧ p.2 < NS_IN_SECOND
    · refine ⟨0, ?_⟩
      rw [Function.iterate_zero_apply,
        timespec_normalize_of_normalized ⟨p.1, p.2⟩ hin]
    · have hlt := timespec_norm_step_distance_lt p hin
      obtain ⟨k, hk⟩ := ih (timespec_norm_step p) (by omega)
      refine ⟨k + 1, ?_⟩
      rw [Function.iterate_succ_apply, hk, timespec_norm_step_normalize]

/-- Iterating the microsecond-scale loop step reaches the result of
timeval_normalize in finitely many iterations, given any distance bound. -/
lemma timeval_norm_step_reaches_aux (d : Nat) :
    ∀ p : Int × Int, norm_distance US_IN_SECOND p.2 ≤ d →
      ∃ k, timeval_norm_step^[k] p =
        ((timeval_normalize ⟨p.1, p.2⟩).tv_sec,
          (timeval_normalize ⟨p.1, p.2⟩).tv_usec) := by
  induction d with
  | zero =>
    intro p hp
    have hin : 0 ≤ p.2 ∧ p.2 < US_IN_SECOND := by
      simp only [norm_distance, US_IN_SECOND] at *
      split at hp <;> omega
    refine ⟨0, ?_⟩
    rw [Function.iterate_zero_apply,
      timeval_normalize_of_normalized ⟨p.1, p.2⟩ hin]
  | succ d ih =>
    intro p hp
    by_cases hin : 0 ≤ p.2 ∧ p.2 < US_IN_SECOND
    · refine ⟨0, ?_⟩
      rw [Function.iterate_zero_apply,
        timeval_normalize_of_normalized ⟨p.1, p.2⟩ hin]
    · have hlt := timeval_norm_step_distance_lt p hin
      obtain ⟨k, hk⟩ := ih (timeval_norm_step p) (by omega)
      refine ⟨k + 1, ?_⟩
      rw [Function.iterate_succ_apply, hk, timeval_norm_step_normalize]

/-- Claim C10: the single-unit carry/borrow loops of the loop-based
normalization terminate on every integer (whole, frac) input. Whenever the
fraction is outside [0, SCALE) an iteration strictly decreases its distance
from that interval, and iterating the loop step reaches, in finitely many
steps, the normalized pair that timespec_normalize / timeval_normalize (the
total functions defined by well-founded recursion on that distance)
compute. -/
theorem claim_c10_loop_normalization_terminates (p : Int × Int) :
    (¬(0 ≤ p.2 ∧ p.2 < NS_IN_SECOND) →
      norm_distance NS_IN_SECOND (timespec_norm_step p).2 <
        norm_distance NS_IN_SECOND p.2) ∧
    (∃ k, timespec_norm_step^[k] p =
        ((timespec_normalize ⟨p.1, p.2⟩).tv_sec,
          (timespec_normalize ⟨p.1, p.2⟩).tv_nsec) ∧
      0 ≤ (timespec_norm_step^[k] p).2 ∧
      (timespec_norm_step^[k] p).2 < NS_IN_SECOND) ∧
    (¬(0 ≤ p.2 ∧ p.2 < US_IN_SECOND) →
      norm_distance US_IN_SECOND (timeval_norm_step p).2 <
        norm_distance US_IN_SECOND p.2) ∧
    (∃ k, timeval_norm_step^[k] p =
        ((timeval_normalize ⟨p.1, p.2⟩).tv_sec,
          (timeval_normalize ⟨p.1, p.2⟩).tv_usec) ∧
      0 ≤ (timeval_norm_step^[k] p).2 ∧
      (timeval_norm_step^[k] p).2 < US_IN_SECOND) := by
  refine ⟨timespec_norm_step_distance_lt p, ?_, timeval_norm_step_distance_lt p, ?_⟩
  · obtain ⟨k, hk⟩ := timespec_norm_step_reaches_aux
      (norm_distance NS_IN_SECOND p.2) p (le_refl _)
    refine ⟨k, hk, ?_, ?_⟩
    · rw [hk]
      exact (timespec_normalize_normalized ⟨p.1, p.2⟩).1
    · rw [hk]
      exact (timespec_normalize_normalized ⟨p.1, p.2⟩).2
  · obtain ⟨k, hk⟩ := timeval_norm_step_reaches_aux
      (norm_distance US_IN_SECOND p.2) p (le_refl _)
    refine ⟨k, hk, ?_, ?_⟩
    · rw [hk]
      exact (timeval_normalize_normalized ⟨p.1, p.2⟩).1
    · rw [hk]
      exact (timeval_normalize_normalized ⟨p.1, p.2⟩).2

/-- Claim C3: for normalized operands, timespec_add / timeval_add and the
C++ operator+ and operator+= forms return a normalized sum whose fields
represent exactly the sum of the operand values; the single conditional
carry suffices. -/
theorem claim_c3_addition_correct (a b : Timespec) (av bv : Timeval)
    (ha : a.Normalized) (hb : b.Normalized)
    (hav : av.Normalized) (hbv : bv.Normalized) :
    (timespec_add a b).Normalized ∧
    (timespec_add a b).toVal = a.toVal + b.toVal ∧
    CTimeSpec.addAssign ⟨a⟩ ⟨b⟩ = ⟨timespec_add a b⟩ ∧
    CTimeSpec.add ⟨a⟩ ⟨b⟩ = ⟨timespec_add a b⟩ ∧
    (timeval_add av bv).Normalized ∧
    (timeval_add av bv).toVal = av.toVal + bv.toVal ∧
    CTimeVal.addAssign ⟨av⟩ ⟨bv⟩ = ⟨timeval_add av bv⟩ ∧
    CTimeVal.add ⟨av⟩ ⟨bv⟩ = ⟨timeval_add av bv⟩ :=
  ⟨(timespec_add_spec a b ha hb).1, (timespec_add_spec a b ha hb).2,
    ctimespec_addAssign_eq a b, ctimespec_add_eq a b ha hb,
    (timeval_add_spec av bv hav hbv).1, (timeval_add_spec av bv hav hbv).2,
    ctimeval_addAssign_eq av bv, ctimeval_add_eq av bv hav hbv⟩

/-- Witness for claim C3: the addition theorem applied at the spec's
carry example (1, 999999999) + (1, 2) and a microsecond analogue. -/
theorem claim_c3_addition_correct_witness :
    Timespec.Normalized ⟨1, 999999999⟩ ∧ Timespec.Normalized ⟨1, 2⟩ ∧
    Timeval.Normalized ⟨1, 999999⟩ ∧ Timeval.Normalized ⟨1, 2⟩ ∧
    (timespec_add ⟨1, 999999999⟩ ⟨1, 2⟩).Normalized ∧
    (timespec_add ⟨1, 999999999⟩ ⟨1, 2⟩).toVal =
      Timespec.toVal ⟨1, 999999999⟩ + Timespec.toVal ⟨1, 2⟩ ∧
    timespec_add ⟨1, 999999999⟩ ⟨1, 2⟩ = ⟨3, 1⟩ :=
  ⟨by decide, by decide, by decide, by decide,
    (claim_c3_addition_correct ⟨1, 999999999⟩ ⟨1, 2⟩ ⟨1, 999999⟩ ⟨1, 2⟩
      (by decide) (by decide) (by decide) (by decide)).1,
    (claim_c3_addition_correct ⟨1, 999999999⟩ ⟨1, 2⟩ ⟨1, 999999⟩ ⟨1, 2⟩
      (by decide) (by decide) (by decide) (by decide)).2.1,
    by decide⟩

/-- Claim C4: for normalized operands, timespec_subtract / timeval_subtract
and the C++ operator- and operator-= forms return a normalized difference
whose fields represent exactly the difference of the operand values; the
single conditional borrow suffices, and the whole field may come out
negative. -/
theorem claim_c4_subtraction_correct (a b : Timespec) (av bv : Timeval)
    (ha : a.Normalized) (hb : b.Normalized)
    (hav : av.Normalized) (hbv : bv.Normalized) :
    (timespec_subtract a b).Normalized ∧
    (timespec_subtract a b).toVal = a.toVal - b.toVal ∧
    CTimeSpec.subAssign ⟨a⟩ ⟨b⟩ = ⟨timespec_subtract a b⟩ ∧
    CTimeSpec.sub ⟨a⟩ ⟨b⟩ = ⟨timespec_subtract a b⟩ ∧
    (timeval_subtract av bv).Normalized ∧
    (timeval_subtract av bv).toVal = av.toVal - bv.toVal ∧
    CTimeVal.subAssign ⟨av⟩ ⟨bv⟩ = ⟨timeval_subtract av bv⟩ ∧
    CTimeVal.sub ⟨av⟩ ⟨bv⟩ = ⟨timeval_subtract av bv⟩ :=
  ⟨(timespec_subtract_spec a b ha hb).1, (timespec_subtract_spec a b ha hb).2,
    ctimespec_subAssign_eq a b, ctimespec_sub_eq a b ha hb,
    (timeval_subtract_spec av bv hav hbv).1, (timeval_subtract_spec av bv hav hbv).2,
    ctimeval_subAssign_eq av bv, ctimeval_sub_eq av bv hav hbv⟩

/-- Witness for claim C4: the subtraction theorem applied at a concrete
input where the minuend is smaller, so the whole field of the normalized
difference is negative. -/
theorem claim_c4_subtraction_correct_witness :
    Timespec.Normalized ⟨1, 0⟩ ∧ Timespec.Normalized ⟨2, 20⟩ ∧
    Timeval.Normalized ⟨1, 0⟩ ∧ Timeval.Normalized ⟨2, 20⟩ ∧
    (timespec_subtract ⟨1, 0⟩ ⟨2, 20⟩).Normalized ∧
    (timespec_subtract ⟨1, 0⟩ ⟨2, 20⟩).toVal =
      Timespec.toVal ⟨1, 0⟩ - Timespec.toVal ⟨2, 20⟩ ∧
    timespec_subtract ⟨1, 0⟩ ⟨2, 20⟩ = ⟨-2, 999999980⟩ :=
  ⟨by decide, by decide, by decide, by decide,
    (claim_c4_subtraction_correct ⟨1, 0⟩ ⟨2, 20⟩ ⟨1, 0⟩ ⟨2, 20⟩
      (by decide) (by decide) (by decide) (by decide)).1,
    (claim_c4_subtraction_correct ⟨1, 0⟩ ⟨2, 20⟩ ⟨1, 0⟩ ⟨2, 20⟩
      (by decide) (by decide) (by decide) (by decide)).2.1,
    by decide⟩

/-- Claim C6: for normalized operands, adding b and then subtracting b
returns a field-for-field, through the C functions and through the C++
operator forms, at both resolutions. -/
theorem claim_c6_add_subtract_round_trip (a b : Timespec) (av bv : Timeval)
    (ha : a.Normalized) (hb : b.Normalized)
    (hav : av.Normalized) (hbv : bv.Normalized) :
    timespec_subtract (timespec_add a b) b = a ∧
    CTimeSpec.sub (CTimeSpec.add ⟨a⟩ ⟨b⟩) ⟨b⟩ = ⟨a⟩ ∧
    CTimeSpec.subAssign (CTimeSpec.addAssign ⟨a⟩ ⟨b⟩) ⟨b⟩ = ⟨a⟩ ∧
    timeval_subtract (timeval_add av bv) bv = av ∧
    CTimeVal.sub (CTimeVal.add ⟨av⟩ ⟨bv⟩) ⟨bv⟩ = ⟨av⟩ ∧
    CTimeVal.subAssign (CTimeVal.addAssign ⟨av⟩ ⟨bv⟩) ⟨bv⟩ = ⟨av⟩ := by
  have hadd := timespec_add_spec a b ha hb
  have hsub := timespec_subtract_spec (timespec_add a b) b hadd.1 hb
  have h1 : timespec_subtract (timespec_add a b) b = a := by
    refine timespec_toVal_inj _ _ hsub.1 ha ?_
    rw [hsub.2, hadd.2]
    ring
  have haddv := timeval_add_spec av bv hav hbv
  have hsubv := timeval_subtract_spec (timeval_add av bv) bv haddv.1 hbv
  have h2 : timeval_subtract (timeval_add av bv) bv = av := by
    refine timeval_toVal_inj _ _ hsubv.1 hav ?_
    rw [hsubv.2, haddv.2]
    ring
  refine ⟨h1, ?_, ?_, h2, ?_, ?_⟩
  · rw [ctimespec_add_eq a b ha hb, ctimespec_sub_eq _ _ hadd.1 hb, h1]
  · rw [ctimespec_addAssign_eq a b, ctimespec_subAssign_eq _ _, h1]
  · rw [ctimeval_add_eq av bv hav hbv, ctimeval_sub_eq _ _ haddv.1 hbv, h2]
  · rw [ctimeval_addAssign_eq av bv, ctimeval_subAssign_eq _ _, h2]

/-- Witness for claim C6: the round trip theorem applied at concrete
normalized operands whose sum carries. -/
theorem claim_c6_add_subtract_round_trip_witness :
    Timespec.Normalized ⟨5, 700000000⟩ ∧ Timespec.Normalized ⟨2, 800000000⟩ ∧
    Timeval.Normalized ⟨5, 700000⟩ ∧ Timeval.Normalized ⟨2, 800000⟩ ∧
    timespec_subtract (timespec_add ⟨5, 700000000⟩ ⟨2, 800000000⟩)
      ⟨2, 800000000⟩ = ⟨5, 700000000⟩ ∧
    timeval_subtract (timeval_add ⟨5, 700000⟩ ⟨2, 800000⟩) ⟨2, 800000⟩ =
      ⟨5, 700000⟩ :=
  ⟨by decide, by decide, by decide, by decide,
    (claim_c6_add_subtract_round_trip ⟨5, 700000000⟩ ⟨2, 800000000⟩
      ⟨5, 700000⟩ ⟨2, 800000⟩ (by decide) (by decide) (by decide) (by decide)).1,
    (claim_c6_add_subtract_round_trip ⟨5, 700000000⟩ ⟨2, 800000000⟩
      ⟨5, 700000⟩ ⟨2, 800000⟩ (by decide) (by decide) (by decide)
      (by decide)).2.2.2.1⟩

/-- Claim C7: on a normalized nanosecond value, timespec_to_timeval and the
CTimeVal(struct timespec) constructor keep the whole field, truncate the
fraction by 1000, and the result is already normalized; on a normalized
microsecond value, timeval_to_timespec and the CTimeSpec(struct timeval)
constructor keep the whole field and scale the fraction by 1000 exactly,
and the result is already normalized. Includes the spec's literal
examples. -/
theorem claim_c7_cross_resolution_conversion (t : Timespec) (v : Timeval)
    (ht : t.Normalized) (hv : v.Normalized) :
    (timespec_to_timeval t).tv_sec = t.tv_sec ∧
    (timespec_to_timeval t).tv_usec = t.tv_nsec / 1000 ∧
    (timespec_to_timeval t).Normalized ∧
    (CTimeVal.ofTimespec t).tv = timespec_to_timeval t ∧
    timespec_to_timeval ⟨33, 999⟩ = ⟨33, 0⟩ ∧
    (timeval_to_timespec v).tv_sec = v.tv_sec ∧
    (timeval_to_timespec v).tv_nsec = v.tv_usec * 1000 ∧
    (timeval_to_timespec v).Normalized ∧
    (CTimeSpec.ofTimeval v).ts = timeval_to_timespec v ∧
    timeval_to_timespec ⟨12, 1⟩ = ⟨12, 1000⟩ := by
  obtain ⟨ht1, ht2⟩ := ht
  obtain ⟨hv1, hv2⟩ := hv
  have htdiv : t.tv_nsec.tdiv 1000 = t.tv_nsec / 1000 :=
    Int.tdiv_eq_ediv ht1 (by norm_num)
  have husn : (timespec_to_timeval t).Normalized := by
    simp only [timespec_to_timeval, Timeval.Normalized, US_IN_SECOND, htdiv]
    simp only [NS_IN_SECOND] at ht2
    omega
  have hnsn : (timeval_to_timespec v).Normalized := by
    simp only [timeval_to_timespec, Timespec.Normalized, NS_IN_SECOND]
    simp only [US_IN_SECOND] at hv2
    omega
  refine ⟨rfl, htdiv, husn, ?_, by decide, rfl, rfl, hnsn, ?_, by decide⟩
  · show (⟨timeval_normalize (timespec_to_timeval t)⟩ : CTimeVal).tv = _
    rw [timeval_normalize_of_normalized _ husn]
  · show (⟨timespec_normalize (timeval_to_timespec v)⟩ : CTimeSpec).ts = _
    rw [timespec_normalize_of_normalized _ hnsn]

/-- Witness for claim C7: the conversion theorem applied at the spec's
example inputs (33, 999) at nanosecond scale and (12, 1) at microsecond
scale. -/
theorem claim_c7_cross_resolution_conversion_witness :
    Timespec.Normalized ⟨33, 999⟩ ∧ Timeval.Normalized ⟨12, 1⟩ ∧
    (timespec_to_timeval ⟨33, 999⟩).Normalized ∧
    (timeval_to_timespec ⟨12, 1⟩).Normalized ∧
    timespec_to_timeval ⟨33, 999⟩ = ⟨33, 0⟩ ∧
    timeval_to_timespec ⟨12, 1⟩ = ⟨12, 1000⟩ :=
  ⟨by decide, by decide,
    (claim_c7_cross_resolution_conversion ⟨33, 999⟩ ⟨12, 1⟩
      (by decide) (by decide)).2.2.1,
    (claim_c7_cross_resolution_conversion ⟨33, 999⟩ ⟨12, 1⟩
      (by decide) (by decide)).2.2.2.2.2.2.2.1,
    by decide, by decide⟩

/-- Claim C8: for every non-negative milliseconds count, the milliseconds
constructors produce whole = ms / 1000 and frac = (ms % 1000) * (SCALE /
1000), the result is normalized, and the spec's literal examples hold. -/
theorem claim_c8_from_ms_constructor (ms : Int) (n : Nat) (hms : 0 ≤ ms) :
    (timespec_from_ms ms).Normalized ∧
    (timespec_from_ms ms).tv_sec = ms / 1000 ∧
    (timespec_from_ms ms).tv_nsec = ms % 1000 * (NS_IN_SECOND / 1000) ∧
    (timeval_from_ms ms).Normalized ∧
    (timeval_from_ms ms).tv_sec = ms / 1000 ∧
    (timeval_from_ms ms).tv_usec = ms % 1000 * (US_IN_SECOND / 1000) ∧
    (CTimeSpec.ofMs n).ts = timespec_from_ms (n : Int) ∧
    (CTimeVal.ofMs n).tv = timeval_from_ms (n : Int) ∧
    timespec_from_ms 1000 = ⟨1, 0⟩ ∧
    timespec_from_ms 1 = ⟨0, NS_IN_SECOND / 1000⟩ ∧
    timespec_from_ms 99999 = ⟨99, 999 * (NS_IN_SECOND / 1000)⟩ ∧
    timeval_from_ms 1000 = ⟨1, 0⟩ ∧
    timeval_from_ms 1 = ⟨0, US_IN_SECOND / 1000⟩ ∧
    timeval_from_ms 99999 = ⟨99, 999 * (US_IN_SECOND / 1000)⟩ := by
  have hdiv : ms.tdiv 1000 = ms / 1000 := Int.tdiv_eq_ediv hms (by norm_num)
  have hmod : ms.tmod 1000 = ms % 1000 := Int.tmod_eq_emod hms (by norm_num)
  refine ⟨?_, ?_, ?_, ?_, ?_, ?_, rfl, rfl,
    by decide, by decide, by decide, by decide, by decide, by decide⟩
  · simp only [timespec_from_ms, Timespec.Normalized, MS_IN_SECOND, NS_IN_MS,
      NS_IN_SECOND, hmod]
    omega
  · simp only [timespec_from_ms, MS_IN_SECOND, hdiv]
  · simp only [timespec_from_ms, MS_IN_SECOND, NS_IN_MS, NS_IN_SECOND, hmod]
    norm_num
  · simp only [timeval_from_ms, Timeval.Normalized, MS_IN_SECOND, US_IN_MS,
      US_IN_SECOND, hmod]
    omega
  · simp only [timeval_from_ms, MS_IN_SECOND, hdiv]
  · simp only [timeval_from_ms, MS_IN_SECOND, US_IN_MS, US_IN_SECOND, hmod]
    norm_num

/-- Witness for claim C8: the milliseconds constructor theorem applied at
the spec's example count 99999. -/
theorem claim_c8_from_ms_constructor_witness :
    (0 : Int) ≤ 99999 ∧
    (timespec_from_ms 99999).Normalized ∧
    timespec_from_ms 99999 = ⟨99, 999 * (NS_IN_SECOND / 1000)⟩ :=
  ⟨by decide,
    (claim_c8_from_ms_constructor 99999 99999 (by decide)).1,
    (claim_c8_from_ms_constructor 99999 99999
      (by decide)).2.2.2.2.2.2.2.2.2.2.1⟩

/-- Claim C1, evaluated at a failing input: with the normalized operands
a = (2, 5) and b = (1, 10), whose true rational values satisfy a > b, the C
three-way compares correctly return 1, but the C++ operator< reports
a < b = true while operator> simultaneously reports a > b = true, so the
derived relational operators neither agree with the rational order nor
satisfy trichotomy. -/
theorem claim_c1_relational_operators_failing_input :
    Timespec.Normalized ⟨2, 5⟩ ∧ Timespec.Normalized ⟨1, 10⟩ ∧
    Timespec.toVal ⟨2, 5⟩ > Timespec.toVal ⟨1, 10⟩ ∧
    timespec_compare ⟨2, 5⟩ ⟨1, 10⟩ = 1 ∧
    CTimeSpec.lt ⟨⟨2, 5⟩⟩ ⟨⟨1, 10⟩⟩ = true ∧
    CTimeSpec.gt ⟨⟨2, 5⟩⟩ ⟨⟨1, 10⟩⟩ = true ∧
    CTimeSpec.le ⟨⟨2, 5⟩⟩ ⟨⟨1, 10⟩⟩ = true ∧
    CTimeSpec.eq ⟨⟨2, 5⟩⟩ ⟨⟨1, 10⟩⟩ = false ∧
    Timeval.Normalized ⟨2, 5⟩ ∧ Timeval.Normalized ⟨1, 10⟩ ∧
    Timeval.toVal ⟨2, 5⟩ > Timeval.toVal ⟨1, 10⟩ ∧
    timeval_compare ⟨2, 5⟩ ⟨1, 10⟩ = 1 ∧
    CTimeVal.lt ⟨⟨2, 5⟩⟩ ⟨⟨1, 10⟩⟩ = true ∧
    CTimeVal.gt ⟨⟨2, 5⟩⟩ ⟨⟨1, 10⟩⟩ = true := by
  decide

/-- Counterexample for claim C9: with a failing clock read (status -1,
raw output (5, -1)), CTimeSpec::Now returns a fully normalized fabricated
value, exposes no status to its caller, and its result is identical to the
one obtained from a successful read, so the failure status is not
propagated; CTimeVal::Now behaves the same way. -/
theorem claim_c9_counterexample_now_ignores_status :
    CTimeSpec.Now (-1, ⟨5, -1⟩) = ⟨⟨4, 999999999⟩⟩ ∧
    CTimeSpec.Now (-1, ⟨5, -1⟩) = CTimeSpec.Now (0, ⟨5, -1⟩) ∧
    (CTimeSpec.Now (-1, ⟨5, -1⟩)).ts.Normalized ∧
    CTimeVal.Now (-1, ⟨5, -1⟩) = CTimeVal.Now (0, ⟨5, -1⟩) := by
  refine ⟨?_, rfl, ?_, rfl⟩
  · simp only [CTimeSpec.Now, CTimeSpec.ofTimespec]
    rw [timespec_normalize_eq]
    decide
  · exact timespec_normalize_normalized _

/-- Claim C9 as amended: the C now functions return the clock-read status
unchanged to the caller (timespec_now hands the raw value through,
timeval_now converts it even on failure), while the C++ Now family of
CTimeSpec and CTimeVal discards the status entirely and always returns a
value normalized from whatever the read produced. -/
theorem claim_c9_amended_status_propagation (rc : Int) (ts : Timespec) :
    (timespec_now (rc, ts)).1 = rc ∧
    (timespec_now_monotonic (rc, ts)).1 = rc ∧
    (timespec_now_monotonic_raw (rc, ts)).1 = rc ∧
    (timespec_now (rc, ts)).2 = ts ∧
    (timeval_now (rc, ts)).1 = rc ∧
    (timeval_now_monotonic (rc, ts)).1 = rc ∧
    (timeval_now_monotonic_raw (rc, ts)).1 = rc ∧
    (timeval_now (rc, ts)).2 = timespec_to_timeval ts ∧
    CTimeSpec.Now (rc, ts) = CTimeSpec.ofTimespec ts ∧
    CTimeSpec.NowMonotonic (rc, ts) = CTimeSpec.ofTimespec ts ∧
    CTimeSpec.NowMonotonicRaw (rc, ts) = CTimeSpec.ofTimespec ts ∧
    CTimeVal.Now (rc, ts) = CTimeVal.ofTimespec ts ∧
    CTimeVal.NowMonotonic (rc, ts) = CTimeVal.ofTimespec ts ∧
    CTimeVal.NowMonotonicRaw (rc, ts) = CTimeVal.ofTimespec ts :=
  ⟨rfl, rfl, rfl, rfl, rfl, rfl, rfl, rfl, rfl, rfl, rfl, rfl, rfl, rfl⟩

/-- Witness for claim C10: the termination theorem applied at the concrete
point (3, -5), whose fraction lies outside [0, SCALE), discharging the
out-of-range hypothesis of the distance-decrease conjunct. -/
theorem claim_c10_loop_normalization_terminates_witness :
    ¬(0 ≤ (-5 : Int) ∧ (-5 : Int) < NS_IN_SECOND) ∧
    norm_distance NS_IN_SECOND (timespec_norm_step (3, -5)).2 <
      norm_distance NS_IN_SECOND (-5) :=
  ⟨by decide, (claim_c10_loop_normalization_terminates (3, -5)).1 (by decide)⟩
